import Mathlib

/-!
# YantraOS core — shallow embedding and verification

This file embeds the control core of the YantraOS repository in Lean 4 and
proves (or refutes) the specification claims about it.

Embedded source files:
* `core/engine.py` — the `KriyaEngine` class: the phase enumeration
  (`KriyaPhase`), the daemon status enumeration, the telemetry log-tail
  buffer (`_log`), and the main `run()` loop (iteration counter, the four
  phases wrapped in one `try`, the `WATCHDOG=1` notification, the IDLE
  transition, the fixed inter-iteration sleep, and the graceful-shutdown
  path).
* `core/router.py` — `InferenceRouter.complete` (ordered fallback over a
  route path, first success short-circuits, exhaustion raises a
  `RuntimeError` embedding the last failure) and `InferenceRouter.stream`
  (the streaming variant).
* `core/hybrid_router.py` — `_load_secrets` (permission-gated secrets
  loading), `get_router` (lazy singleton that loads secrets on first use),
  and the `asyncio.wait_for` deadline wrapper in `complete`.
* `core/ipc_server.py` — the live state reference installed by
  `set_state_ref`, the field-by-field reads of the `/telemetry` endpoint,
  and the `/command` endpoint's `shutdown` action (which sets a
  `shutdown_requested` attribute on the injected state object).

External effects (the sdnotify socket, litellm network calls, the real
clock) are modelled as parameters: each loop iteration receives an
environment record saying which phase (if any) raises, when signals
arrive, and how much wall time the phase block consumes; each router
candidate receives an attempt record with a duration and an outcome.
-/

namespace YantraOS

/-- The phase enumeration of `core/engine.py` (`class KriyaPhase(Enum)`).
The string values of the Python enum are reproduced by `phaseName`. -/
inductive KriyaPhase where
  | ANALYZE
  | PATCH
  | TEST
  | UPDATE_ARCHITECTURE
  | IDLE
deriving DecidableEq, Repr

/-- The `.value` string of each `KriyaPhase` member, exactly as in
`core/engine.py`. -/
def phaseName : KriyaPhase → String
  | .ANALYZE => "ANALYZE"
  | .PATCH => "PATCH"
  | .TEST => "TEST"
  | .UPDATE_ARCHITECTURE => "UPDATE_ARCHITECTURE"
  | .IDLE => "IDLE"

/-- The daemon status enumeration of `core/engine.py`
(`class DaemonStatus(Enum)`). -/
inductive DaemonStatus where
  | BOOTING
  | ACTIVE
  | IDLE
  | ERROR
  | OFFLINE
deriving DecidableEq, Repr

/-- The order in which `KriyaEngine.run` awaits the four phase coroutines
inside the per-iteration `try` block:
`_phase_analyze`, `_phase_patch`, `_phase_test`,
`_phase_update_architecture` (engine.py lines 496-499). -/
def phaseSeq : List KriyaPhase :=
  [.ANALYZE, .PATCH, .TEST, .UPDATE_ARCHITECTURE]

/-- The phase awaited at position `j` of the `try` block. -/
def phaseOfIdx (j : Fin 4) : KriyaPhase :=
  match j.val with
  | 0 => .ANALYZE
  | 1 => .PATCH
  | 2 => .TEST
  | _ => .UPDATE_ARCHITECTURE

/-- The mutable fields of `KriyaEngine` that the `run()` loop reads or
writes, plus the `shutdown_requested` attribute that the IPC `/command`
endpoint writes onto the injected state object (`ipc_server.py` line 176).
`shutdownEvent` is the `asyncio.Event` set by the SIGTERM/SIGINT handler;
`shutdownRequested` is the plain attribute set by the IPC command — the
two are distinct in the source, and `run()` consults only the former. -/
structure EngineSt where
  iteration : Nat
  currentPhase : KriyaPhase
  lastError : Option String
  status : DaemonStatus
  shutdownEvent : Bool
  shutdownRequested : Bool
deriving DecidableEq, Repr

/-- Engine state right after `_boot` succeeds: `iteration = 0`,
`current_phase = IDLE` (constructor default), no error, status ACTIVE,
no shutdown flags. -/
def initSt : EngineSt :=
  { iteration := 0
    currentPhase := .IDLE
    lastError := none
    status := .ACTIVE
    shutdownEvent := false
    shutdownRequested := false }

/-- Environment of a single loop iteration — everything the outside world
decides during one pass of the `while` body:
* `failAt = some (j, m)`: the `j`-th phase coroutine raises an exception
  whose string form is `m` (after having set `current_phase`); `none`
  means all four phases return normally.
* `sigDuringIter`: SIGTERM/SIGINT arrives while the phase block is
  running (the handler sets the shutdown event; the block itself never
  reads it).
* `sigDuringSleep`: the signal arrives during the inter-iteration
  `asyncio.wait_for(event.wait(), timeout)`, waking it early.
* `ipcShutdown`: the IPC `/command` endpoint receives
  `{"action": "shutdown"}` during this iteration and sets
  `shutdown_requested` on the state object.
* `elapsed`: wall-clock time consumed by the phase block.  `run()` never
  measures or uses this value — it is carried only so that cadence
  claims can be stated. -/
structure IterPlan where
  failAt : Option (Fin 4 × String)
  sigDuringIter : Bool
  sigDuringSleep : Bool
  ipcShutdown : Bool
  elapsed : Nat
deriving DecidableEq, Repr

/-- Observable events of one run of the loop, in program order. -/
inductive Ev where
  | iterInc (n : Nat)
  | phaseStart (p : KriyaPhase)
  | phaseComplete (p : KriyaPhase)
  | errorCaught (m : String)
  | ping
  | idleSet
  | sleep (d : Nat)
  | stopping
  | cleanup
deriving DecidableEq, Repr

/-- Events of one phase coroutine that runs to completion: it first
assigns `current_phase` (the first statement of every `_phase_*` body)
and then returns. -/
def phasePairEvents (p : KriyaPhase) : List Ev :=
  [Ev.phaseStart p, Ev.phaseComplete p]

/-- Events produced inside the per-iteration `try` block.  When phase `j`
raises, the phases before `j` ran to completion, phase `j` started (its
`current_phase` assignment cannot raise) and then raised, and the
remaining phases of the `try` block are never awaited — control jumps to
the `except` clause, which records the error. -/
def iterPhaseEvents (plan : IterPlan) : List Ev :=
  match plan.failAt with
  | none => (phaseSeq.map phasePairEvents).flatten
  | some (j, m) =>
      ((phaseSeq.take j.val).map phasePairEvents).flatten
        ++ [Ev.phaseStart (phaseOfIdx j), Ev.errorCaught m]

/-- Engine state after the `try`/`except` block of one iteration
(engine.py lines 494-513), starting from the state `st` in which the
block was entered.  On success: `last_error = None`, `status = ACTIVE`,
`current_phase` ends at the last phase.  On a caught exception at phase
`j`: `last_error = str(e)`, `status = ERROR`, `current_phase` is the
phase that raised. -/
def stAfterPhases (plan : IterPlan) (st : EngineSt) : EngineSt :=
  match plan.failAt with
  | none =>
      { st with currentPhase := .UPDATE_ARCHITECTURE
                lastError := none
                status := .ACTIVE }
  | some (j, m) =>
      { st with currentPhase := phaseOfIdx j
                lastError := some m
                status := .ERROR }

/-- One full pass of the `while` body of `KriyaEngine.run` (engine.py
lines 491-532), given that the shutdown event was not set at the top:

1. `self.iteration += 1`;
2. the `try`/`except` phase block;
3. `self._notify("WATCHDOG=1")` — emitted unconditionally, after the
   `except` clause if a phase failed;
4. `self.current_phase = KriyaPhase.IDLE`;
5. `await asyncio.wait_for(self._shutdown_event.wait(), timeout=self.loop_interval)`:
   if the event is set (or gets set during the wait) the wait returns and
   the loop breaks; otherwise `TimeoutError` fires after the full fixed
   `loop_interval` and the loop continues.

Returns (state after the pass, events of the pass, whether the loop
breaks).  The sleep event carries the timeout actually passed to
`wait_for`, which is always `loop_interval` — the loop performs no
elapsed-time measurement. -/
def iterStep (interval : Nat) (plan : IterPlan) (st : EngineSt) :
    EngineSt × List Ev × Bool :=
  let st1 : EngineSt := { st with iteration := st.iteration + 1 }
  let st2 : EngineSt := stAfterPhases plan st1
  let st3 : EngineSt :=
    { st2 with shutdownEvent := st2.shutdownEvent || plan.sigDuringIter
               shutdownRequested := st2.shutdownRequested || plan.ipcShutdown }
  let st4 : EngineSt := { st3 with currentPhase := .IDLE }
  let brk : Bool := st4.shutdownEvent || plan.sigDuringSleep
  let st5 : EngineSt := { st4 with shutdownEvent := brk }
  let evs : List Ev :=
    Ev.iterInc (st.iteration + 1) :: iterPhaseEvents plan
      ++ [Ev.ping, Ev.idleSet]
      ++ (if brk then [] else [Ev.sleep interval])
  (st5, evs, brk)

/-- The Kriya Loop (`while not self._shutdown_event.is_set(): ...`)
followed by the graceful-shutdown tail of `run()` (engine.py lines
534-546): `_notify("STOPPING=1")`, `status = OFFLINE`,
`sandbox.cleanup()`.  The loop is infinite in the source; here it is
observed for as many iterations as the environment list `plans`
provides, so an execution that exhausts `plans` without a shutdown is a
finite prefix of an ongoing run (no shutdown tail is emitted for it). -/
def run (interval : Nat) (plans : List IterPlan) (st : EngineSt) :
    EngineSt × List Ev :=
  match plans with
  | [] => (st, [])
  | plan :: rest =>
      if st.shutdownEvent then
        ({ st with status := .OFFLINE }, [Ev.stopping, Ev.cleanup])
      else
        let r := iterStep interval plan st
        if r.2.2 then
          ({ r.1 with status := .OFFLINE }, r.2.1 ++ [Ev.stopping, Ev.cleanup])
        else
          let rr := run interval rest r.1
          (rr.1, r.2.1 ++ rr.2)

/-- Number of `WATCHDOG=1` notifications in a trace. -/
def pingCount (tr : List Ev) : Nat :=
  tr.countP fun e => match e with | Ev.ping => true | _ => false

/-- Number of phase completions in a trace. -/
def completeCount (tr : List Ev) : Nat :=
  tr.countP fun e => match e with | Ev.phaseComplete _ => true | _ => false

/-- The successive values taken by `self.iteration`, in order. -/
def iterIncList (tr : List Ev) : List Nat :=
  tr.filterMap fun e => match e with | Ev.iterInc n => some n | _ => none

/-- The phases started in a trace, in order. -/
def phaseStartList (tr : List Ev) : List KriyaPhase :=
  tr.filterMap fun e => match e with | Ev.phaseStart p => some p | _ => none

/-- The phases completed in a trace, in order. -/
def phaseCompleteList (tr : List Ev) : List KriyaPhase :=
  tr.filterMap fun e => match e with | Ev.phaseComplete p => some p | _ => none

/-- The timeouts of the inter-iteration sleeps that ran to completion. -/
def sleepList (tr : List Ev) : List Nat :=
  tr.filterMap fun e => match e with | Ev.sleep d => some d | _ => none

/-- The `KriyaEngine._log` tail-buffer update (engine.py lines 157-163):
append the message, then keep only the last 50 lines. -/
def logPush (tail : List String) (message : String) : List String :=
  let t := tail ++ [message]
  if t.length > 50 then t.drop (t.length - 50) else t

/-! ## Live-reference reads (`core/ipc_server.py`)

`set_state_ref` stores a live reference to the engine state; the
`/telemetry` endpoint builds its JSON response by reading fields of that
live object one at a time with `getattr` — `phase` first (line 136),
`iteration` second (line 137).  No copy of the state is taken at a phase
boundary.  We model the shared memory cell as the pair
(current phase, iteration counter), evolving by the writer's field
writes, and a concurrent reader as a pair of positions in the writer's
write sequence: the position at which it reads `phase` and the (no
earlier) position at which it reads `iteration`. -/

/-- A single field write performed by the engine loop on the shared
state object. -/
inductive FieldWrite where
  | wIter (n : Nat)
  | wPhase (p : KriyaPhase)
deriving DecidableEq, Repr

/-- The sequence of writes to the `phase`/`iteration` fields performed
during a trace: the iteration increment writes `iteration`; entering a
phase writes `current_phase`; the IDLE transition writes
`current_phase`.  All other events touch neither field. -/
def writesOf (tr : List Ev) : List FieldWrite :=
  tr.filterMap fun e =>
    match e with
    | Ev.iterInc n => some (FieldWrite.wIter n)
    | Ev.phaseStart p => some (FieldWrite.wPhase p)
    | Ev.idleSet => some (FieldWrite.wPhase .IDLE)
    | _ => none

/-- Replay a write sequence over the shared (phase, iteration) cell. -/
def applyWrites (s : KriyaPhase × Nat) : List FieldWrite → KriyaPhase × Nat
  | [] => s
  | FieldWrite.wIter n :: ws => applyWrites (s.1, n) ws
  | FieldWrite.wPhase p :: ws => applyWrites (p, s.2) ws

/-- The record assembled by the `/telemetry` endpoint when its `getattr`
of `phase` happens after the writer's first `k1` writes and its
`getattr` of `iteration` after the first `k2` writes (`k1 ≤ k2`, since
the code reads `phase` before `iteration`). -/
def readerObserve (s0 : KriyaPhase × Nat) (ws : List FieldWrite)
    (k1 k2 : Nat) : KriyaPhase × Nat :=
  ((applyWrites s0 (ws.take k1)).1, (applyWrites s0 (ws.take k2)).2)

/-! ## Inference router (`core/router.py`)

`InferenceRouter.complete` iterates the resolved route path in order; a
candidate attempt either yields the completion text or raises.  The
network behaviour of each candidate is a parameter: an `AttemptSpec`
gives the wall-clock duration the `await acompletion(...)` call consumes
and its outcome.  The method has **no** timeout parameter and wraps the
attempts in no deadline, so its elapsed time is simply the sum of the
attempted candidates' durations. -/

/-- Behaviour of one `acompletion` attempt against a given model string:
how long the awaited call takes before returning or raising, and whether
it returns text or raises an error. -/
structure AttemptSpec where
  duration : Nat
  outcome : Except String String
deriving Repr

/-- Python string form of `last_error` (initially `None`). -/
def errText : Option String → String
  | none => "None"
  | some e => e

/-- The message of the `RuntimeError` raised when the route path is
exhausted (router.py line 143). -/
def exhaustMsg (lastErr : Option String) : String :=
  "YantraOS InferenceRouter failed all routes. Final error: " ++ errText lastErr

/-- Result of a `complete` call: the returned text or raised error, the
candidates attempted (in order), the total wall-clock time consumed, and
the final value of `self.current_model`. -/
structure RouterRun where
  result : Except String String
  attempted : List String
  elapsed : Nat
  currentModel : String
deriving Repr

/-- The fallback loop of `InferenceRouter.complete` (router.py lines
109-143), carrying `last_error`, the list of candidates already tried
and the time consumed so far.  On success the loop returns immediately;
on failure it records the error and advances; on exhaustion it raises
`RuntimeError` embedding `last_error` and sets `current_model` to
`"FAILED"`. -/
def completeGo (att : String → AttemptSpec) :
    List String → Option String → List String → Nat → RouterRun
  | [], lastErr, tried, t =>
      ⟨Except.error (exhaustMsg lastErr), tried, t, "FAILED"⟩
  | m :: rest, lastErr, tried, t =>
      match (att m).outcome with
      | Except.ok text => ⟨Except.ok text, tried ++ [m], t + (att m).duration, m⟩
      | Except.error e =>
          completeGo att rest (some e) (tried ++ [m]) (t + (att m).duration)

/-- `InferenceRouter.complete` applied to a resolved route path. -/
def routerComplete (att : String → AttemptSpec) (routePath : List String) :
    RouterRun :=
  completeGo att routePath none [] 0

/-- Sum of the durations the attempts against the given candidates
consume. -/
def sumDur (att : String → AttemptSpec) (l : List String) : Nat :=
  (l.map fun c => (att c).duration).sum

/-- Result of `hybrid_router.complete`: outcome and elapsed time. -/
structure HybridRun where
  result : Except String String
  elapsed : Nat
deriving Repr

/-- The deadline wrapper of `hybrid_router.complete` (hybrid_router.py
lines 263-278): the single routed call (whose chain iteration lives
inside the external litellm Router) is wrapped in
`asyncio.wait_for(..., timeout=timeout)`.  If the inner call finishes
within the timeout its result is returned after its own duration;
otherwise the attempt is cancelled and `asyncio.TimeoutError` is raised
at the deadline. -/
def hybridComplete (innerDuration : Nat) (inner : Except String String)
    (timeout : Nat) : HybridRun :=
  if innerDuration ≤ timeout then ⟨inner, innerDuration⟩
  else ⟨Except.error "asyncio.TimeoutError", timeout⟩

/-! ## Streaming variant (`InferenceRouter.stream`)

Each candidate's stream is described by the chunks it successfully
produces and whether it then terminates cleanly or raises.  In the
source, the whole `async for chunk in response_stream` sits inside the
per-candidate `try`, so an exception raised after some chunks were
already yielded to the caller is caught by the same `except` clause that
handles connection failures, and the loop advances to the next
candidate. -/

/-- Behaviour of one candidate's stream: the chunks it yields before
ending, and `some e` when it then raises (mid-stream or on connect,
`chunks = []`) or `none` when it finishes cleanly. -/
structure StreamPlan where
  chunks : List String
  err : Option String
deriving Repr

/-- The fallback loop of `InferenceRouter.stream` (router.py lines
168-203): yields every chunk a candidate produces; if the candidate's
stream raises (before or after yielding), the exception is caught and
the next candidate is attempted; if a candidate finishes cleanly the
generator returns; on exhaustion a `RuntimeError` embedding `last_error`
is raised.  Returns (all chunks delivered to the caller in order, final
outcome). -/
def streamGo (plans : String → StreamPlan) :
    List String → Option String → List String → List String × Except String Unit
  | [], lastErr, out =>
      (out, Except.error
        ("YantraOS InferenceRouter stream failed all routes. Final error: "
          ++ errText lastErr))
  | m :: rest, lastErr, out =>
      match (plans m).err with
      | none => (out ++ (plans m).chunks, Except.ok ())
      | some e => streamGo plans rest (some e) (out ++ (plans m).chunks)

/-- `InferenceRouter.stream` applied to a resolved route path. -/
def routerStream (plans : String → StreamPlan) (routePath : List String) :
    List String × Except String Unit :=
  streamGo plans routePath none []

/-! ## Secrets loading (`core/hybrid_router.py`) -/

/-- The fields of `os.stat` consulted by `_load_secrets`. -/
structure FileStat where
  uid : Nat
  mode : Nat
deriving Repr

/-- A secrets file: its stat and its raw lines. -/
structure SecretsFile where
  fstat : FileStat
  fileLines : List String
deriving Repr

/-- The process environment, as an ordered association list with Python
`dict` update semantics. -/
abbrev Env := List (String × String)

/-- `os.environ[key] = value`: update in place when the key exists,
append otherwise. -/
def envSet (env : Env) (k v : String) : Env :=
  if env.any fun p => p.1 = k then
    env.map fun p => if p.1 = k then (k, v) else p
  else env ++ [(k, v)]

/-- One line of the parsing loop of `_load_secrets` (hybrid_router.py
lines 87-96): strip; skip blank lines, comment lines and lines without
an equals sign; split at the first equals sign; strip key and value;
inject into the environment when the key is non-empty. -/
def parseSecretLine (env : Env) (raw : String) : Env :=
  let line := raw.trim
  if line = "" then env
  else if line.startsWith "#" then env
  else
    match line.splitOn "=" with
    | [] => env
    | [_] => env
    | k :: rest =>
        let key := k.trim
        let value := (String.intercalate "=" rest).trim
        if key = "" then env else envSet env key value

/-- `_load_secrets` (hybrid_router.py lines 47-98) over an explicit
filesystem view and environment.  Returns (raised error message if any,
environment after the call).  A missing file returns normally having
loaded nothing; an existing file not owned by uid 0, or with any
permission bit in `0o177` set, raises before any line is read. -/
def loadSecrets (file : Option SecretsFile) (env : Env) :
    Option String × Env :=
  match file with
  | none => (none, env)
  | some f =>
      if f.fstat.uid ≠ 0 then
        (some "SECURITY VIOLATION: secrets file is not owned by root", env)
      else if f.fstat.mode &&& 0o177 ≠ 0 then
        (some "SECURITY VIOLATION: secrets file has insecure permissions", env)
      else
        (none, f.fileLines.foldl parseSecretLine env)

/-- `get_router` (hybrid_router.py lines 217-226): on first use
(`_router_instance is None`) it calls `_load_secrets` and then builds
the litellm Router from the resulting environment (modelled as the
environment snapshot the build reads); a raised `RuntimeError`
propagates to the caller.  Returns `(router, environment after the
call)` on success.  `hybrid_router.complete` begins with
`router = get_router()` (line 258), so its first call propagates the
same error. -/
def getRouter (routerInstance : Option Env) (file : Option SecretsFile)
    (env : Env) : Except String (Env × Env) :=
  match routerInstance with
  | some r => Except.ok (r, env)
  | none =>
      match loadSecrets file env with
      | (some err, _) => Except.error err
      | (none, env') => Except.ok (env', env')

/-- The prelude of the first `hybrid_router.complete` call in a fresh
process: `get_router()` with an empty instance cache. -/
def hybridFirstComplete (file : Option SecretsFile) (env : Env) :
    Except String (Env × Env) :=
  getRouter none file env

/-! ## C9 — the log-tail ring buffer -/

/-- Folding `logPush` keeps exactly the last 50 pushed entries: the
buffer after any push sequence equals the suffix of the pushes of
length at most 50. -/
lemma logPush_foldl_drop (es : List String) :
    ∀ acc : List String, acc.length ≤ 50 →
      es.foldl logPush acc = (acc ++ es).drop ((acc ++ es).length - 50) := by
  induction es with
  | nil =>
      intro acc h
      simp only [List.foldl_nil, List.append_nil]
      rw [Nat.sub_eq_zero_of_le h, List.drop_zero]
  | cons e tl ih =>
      intro acc h
      simp only [List.foldl_cons]
      by_cases hlen : (acc ++ [e]).length > 50
      · have hacc : acc.length = 50 := by
          simp only [List.length_append, List.length_singleton] at hlen; omega
        have hpush : logPush acc e = (acc ++ [e]).drop 1 := by
          simp only [logPush, if_pos hlen]
          congr 1
          simp only [List.length_append, List.length_singleton]
          omega
        have hlt : ((acc ++ [e]).drop 1).length ≤ 50 := by
          simp only [List.length_drop, List.length_append, List.length_singleton]
          omega
        rw [hpush, ih ((acc ++ [e]).drop 1) hlt]
        have hsplit : (acc ++ [e]).drop 1 ++ tl = (acc ++ e :: tl).drop 1 := by
          have hflat : acc ++ e :: tl = (acc ++ [e]) ++ tl := by simp
          rw [hflat]
          exact (List.drop_append_of_le_length (by simp)).symm
        rw [hsplit, List.drop_drop]
        congr 1
        simp only [List.length_drop, List.length_append, List.length_singleton,
          List.length_cons]
        omega
      · have hpush : logPush acc e = acc ++ [e] := by
          simp only [logPush, if_neg hlen]
        have hlt : (acc ++ [e]).length ≤ 50 := by omega
        rw [hpush, ih (acc ++ [e]) hlt]
        have h1 : (acc ++ [e]) ++ tl = acc ++ e :: tl := by simp
        rw [h1]

/-- C9 (amended): the `log_tail` buffer maintained by `_log` is a bounded
ring of capacity 50 (not 100): after any sequence of pushes starting
from the empty buffer, the buffer holds exactly the most recent
`min n 50` entries in their original push order — each push beyond 50
evicts the oldest entry. -/
theorem c9_log_tail_ring_capacity_50 (es : List String) :
    es.foldl logPush [] = es.drop (es.length - 50) ∧
    (es.foldl logPush []).length = min es.length 50 := by
  have h := logPush_foldl_drop es [] (by simp)
  simp only [List.nil_append] at h
  refine ⟨h, ?_⟩
  rw [h, List.length_drop]
  omega

/-- Fifty-one distinct entries pushed through `_log` (the n-th entry is
the string of n letters x). -/
def c9Entries : List String :=
  (List.range 51).map fun n => String.mk (List.replicate n 'x')

set_option maxRecDepth 8000 in
/-- C9 counterexample: the claim says the buffer has capacity 100, so
pushing 51 entries would leave all 51 in place.  The code keeps only the
last 50 (`engine.py` line 162: `if len(self.log_tail) > 50`): after 51
pushes the buffer has length 50 and the first entry has been evicted. -/
theorem c9_capacity_counterexample :
    c9Entries.length = 51 ∧
    (c9Entries.foldl logPush []).length = 50 ∧
    c9Entries.foldl logPush [] ≠ c9Entries ∧
    c9Entries.foldl logPush [] = c9Entries.drop 1 := by decide

/-! ## C10 — the secrets loader permission gate -/

/-- C10: `_load_secrets` raises exactly when the secrets file exists and
is either not owned by uid 0 or has a permission bit in `0o177` set; a
missing file returns normally with the environment untouched; every
raising path leaves the environment unchanged (both checks run before
any line is parsed); and the first `hybrid_router.complete` call (which
runs `get_router()` with an empty instance cache) propagates the raised
error. -/
theorem c10_secrets_permission_gate (file : Option SecretsFile) (env : Env) :
    ((loadSecrets file env).1 ≠ none ↔
      ∃ f, file = some f ∧ (f.fstat.uid ≠ 0 ∨ f.fstat.mode &&& 0o177 ≠ 0)) ∧
    (file = none → loadSecrets file env = (none, env)) ∧
    (∀ e, (loadSecrets file env).1 = some e → (loadSecrets file env).2 = env) ∧
    (∀ f, file = some f → (f.fstat.uid ≠ 0 ∨ f.fstat.mode &&& 0o177 ≠ 0) →
      ∃ msg, (loadSecrets file env).1 = some msg ∧
        hybridFirstComplete file env = Except.error msg) := by
  refine ⟨?_, ?_, ?_, ?_⟩
  · constructor
    · intro h
      match hf : file with
      | none => simp [loadSecrets, hf] at h
      | some f =>
          refine ⟨f, rfl, ?_⟩
          by_contra hc
          push_neg at hc
          simp [loadSecrets, hc.1, hc.2] at h
    · rintro ⟨f, rfl, hbad⟩
      rcases hbad with h1 | h2
      · simp [loadSecrets, h1]
      · by_cases h1 : f.fstat.uid ≠ 0 <;> simp [loadSecrets, h1, h2]
  · rintro rfl; rfl
  · intro e he
    match hf : file with
    | none => rfl
    | some f =>
        subst hf
        by_cases h1 : f.fstat.uid ≠ 0
        · simp [loadSecrets, h1]
        · by_cases h2 : f.fstat.mode &&& 0o177 ≠ 0
          · simp [loadSecrets, h1, h2]
          · simp [loadSecrets, h1, h2] at he
  · rintro f rfl hbad
    have hsome : (loadSecrets (some f) env).1 ≠ none := by
      rcases hbad with h1 | h2
      · simp [loadSecrets, h1]
      · by_cases h1 : f.fstat.uid ≠ 0 <;> simp [loadSecrets, h1, h2]
    match hmsg : (loadSecrets (some f) env).1 with
    | none => exact absurd hmsg hsome
    | some msg =>
        refine ⟨msg, rfl, ?_⟩
        simp only [hybridFirstComplete, getRouter]
        have : loadSecrets (some f) env = (some msg, (loadSecrets (some f) env).2) := by
          rw [← hmsg]
        rw [this]

/-- A secrets file owned by uid 1000 instead of root, used to exercise
the permission gate. -/
def c10BadFile : SecretsFile := ⟨⟨1000, 0o600⟩, ["GEMINI_API_KEY=abc"]⟩

/-- C10 witness: at the uid-1000 file the permission gate fires and the
first completion call propagates the security error. -/
theorem c10_secrets_permission_gate_witness :
    hybridFirstComplete (some c10BadFile) [] =
      Except.error "SECURITY VIOLATION: secrets file is not owned by root" := by
  obtain ⟨msg, h1, h2⟩ :=
    (c10_secrets_permission_gate (some c10BadFile) []).2.2.2 c10BadFile rfl
      (Or.inl (by decide))
  have h0 : (loadSecrets (some c10BadFile) []).1 =
      some "SECURITY VIOLATION: secrets file is not owned by root" := by decide
  rw [h0] at h1
  rwa [← Option.some_inj.mp h1] at h2

/-! ## C3 — the fallback-chain contract of `complete` -/

/-- Summing durations distributes over cons. -/
lemma sumDur_cons (att : String → AttemptSpec) (c : String) (l : List String) :
    sumDur att (c :: l) = (att c).duration + sumDur att l := by
  simp [sumDur]

/-- The candidates attempted by the fallback loop form a prefix of the
remaining route path appended to those already tried. -/
lemma completeGo_attempted_take (att : String → AttemptSpec) :
    ∀ (path : List String) (lastErr : Option String) (tried : List String) (t : Nat),
      ∃ k, (completeGo att path lastErr tried t).attempted = tried ++ path.take k := by
  intro path
  induction path with
  | nil => intro lastErr tried t; exact ⟨0, by simp [completeGo]⟩
  | cons m rest ih =>
      intro lastErr tried t
      cases hout : (att m).outcome with
      | ok text => exact ⟨1, by simp [completeGo, hout]⟩
      | error e =>
          obtain ⟨k, hk⟩ := ih (some e) (tried ++ [m]) (t + (att m).duration)
          exact ⟨k + 1, by simp [completeGo, hout, hk]⟩

/-- When every candidate before `m` fails and `m` succeeds, the loop
returns `m`'s text immediately, having attempted exactly the failing
candidates followed by `m` and consumed exactly their durations; the
candidates after `m` are never attempted. -/
lemma completeGo_firstSuccess (att : String → AttemptSpec) :
    ∀ (pre : List String) (m : String) (post : List String)
      (lastErr : Option String) (tried : List String) (t : Nat) (text : String),
      (∀ x ∈ pre, ∃ e, (att x).outcome = Except.error e) →
      (att m).outcome = Except.ok text →
      completeGo att (pre ++ m :: post) lastErr tried t =
        ⟨Except.ok text, tried ++ pre ++ [m], t + sumDur att (pre ++ [m]), m⟩ := by
  intro pre
  induction pre with
  | nil =>
      intro m post lastErr tried t text _ hm
      simp [completeGo, hm, sumDur]
  | cons x xs ih =>
      intro m post lastErr tried t text hpre hm
      obtain ⟨e, he⟩ := hpre x (by simp)
      have hxs : ∀ y ∈ xs, ∃ e, (att y).outcome = Except.error e := by
        intro y hy; exact hpre y (by simp [hy])
      simp only [List.cons_append, completeGo, he, List.append_eq]
      rw [ih m post (some e) (tried ++ [x]) (t + (att x).duration) text hxs hm]
      simp [sumDur_cons]
      omega

/-- When every candidate fails, the loop exhausts the whole path and
raises the exhaustion error embedding the error of the last candidate,
with `current_model` left at FAILED and the elapsed time equal to the sum
of all candidate durations. -/
lemma completeGo_allFail (att : String → AttemptSpec) :
    ∀ (path' : List String) (c : String) (lastErr : Option String)
      (tried : List String) (t : Nat),
      (∀ x ∈ path' ++ [c], ∃ e, (att x).outcome = Except.error e) →
      ∃ e, (att c).outcome = Except.error e ∧
        completeGo att (path' ++ [c]) lastErr tried t =
          ⟨Except.error (exhaustMsg (some e)), tried ++ (path' ++ [c]),
            t + sumDur att (path' ++ [c]), "FAILED"⟩ := by
  intro path'
  induction path' with
  | nil =>
      intro c lastErr tried t hall
      obtain ⟨e, he⟩ := hall c (by simp)
      refine ⟨e, he, ?_⟩
      simp [completeGo, he, sumDur]
  | cons x xs ih =>
      intro c lastErr tried t hall
      obtain ⟨e0, he0⟩ := hall x (by simp)
      have hxs : ∀ y ∈ xs ++ [c], ∃ e, (att y).outcome = Except.error e := by
        intro y hy; exact hall y (by simp at hy ⊢; tauto)
      obtain ⟨e, he, hres⟩ := ih c (some e0) (tried ++ [x]) (t + (att x).duration) hxs
      refine ⟨e, he, ?_⟩
      simp only [List.cons_append, completeGo, he0, List.append_eq]
      rw [hres]
      simp [sumDur_cons]
      omega

/-- C3 (amended): `InferenceRouter.complete` attempts candidates strictly
in chain order (the attempted list is always a prefix of the route
path), returns immediately on the first succeeding candidate without
attempting any later one, and on exhaustion raises a single
`RuntimeError` embedding the last underlying failure.  It accepts no
caller-specified overall timeout and enforces no deadline — its elapsed
time is the sum of the attempted candidates' durations; only
`hybrid_router.complete` wraps its (single) routed call in
`asyncio.wait_for`, whose elapsed time never exceeds the caller's
timeout. -/
theorem c3_fallback_chain_contract (att : String → AttemptSpec)
    (routePath : List String) :
    (∃ k, (routerComplete att routePath).attempted = routePath.take k) ∧
    (∀ pre m post text, routePath = pre ++ m :: post →
      (∀ x ∈ pre, ∃ e, (att x).outcome = Except.error e) →
      (att m).outcome = Except.ok text →
      routerComplete att routePath =
        ⟨Except.ok text, pre ++ [m], sumDur att (pre ++ [m]), m⟩) ∧
    (∀ pre c, routePath = pre ++ [c] →
      (∀ x ∈ routePath, ∃ e, (att x).outcome = Except.error e) →
      ∃ e, (att c).outcome = Except.error e ∧
        routerComplete att routePath =
          ⟨Except.error (exhaustMsg (some e)), routePath,
            sumDur att routePath, "FAILED"⟩) ∧
    (∀ innerDur inner timeout,
      (hybridComplete innerDur inner timeout).elapsed ≤ timeout) := by
  refine ⟨?_, ?_, ?_, ?_⟩
  · obtain ⟨k, hk⟩ := completeGo_attempted_take att routePath none [] 0
    exact ⟨k, by simpa using hk⟩
  · rintro pre m post text rfl hpre hm
    have h := completeGo_firstSuccess att pre m post none [] 0 text hpre hm
    simpa [routerComplete] using h
  · rintro pre c rfl hall
    obtain ⟨e, he, hres⟩ := completeGo_allFail att pre c none [] 0 hall
    refine ⟨e, he, ?_⟩
    simpa [routerComplete] using hres
  · intro innerDur inner timeout
    by_cases h : innerDur ≤ timeout <;> simp [hybridComplete, h]

/-- Attempt behaviour for the C3 witness: candidate a fails fast,
candidate b succeeds, candidate c would succeed but must never be
attempted. -/
def c3Att : String → AttemptSpec := fun m =>
  if m = "ollama/llama3" then ⟨1, Except.error "connection refused"⟩
  else if m = "gemini/gemini-pro" then ⟨2, Except.ok "the answer"⟩
  else ⟨1, Except.ok "never reached"⟩

/-- C3 witness: on the chain [a, b, c] with a failing and b succeeding,
`complete` returns b's text, attempts exactly [a, b], and consumes
exactly their durations. -/
theorem c3_fallback_chain_contract_witness :
    routerComplete c3Att ["ollama/llama3", "gemini/gemini-pro", "gpt-4o"] =
      ⟨Except.ok "the answer", ["ollama/llama3"] ++ ["gemini/gemini-pro"],
        sumDur c3Att (["ollama/llama3"] ++ ["gemini/gemini-pro"]),
        "gemini/gemini-pro"⟩ :=
  (c3_fallback_chain_contract c3Att
      ["ollama/llama3", "gemini/gemini-pro", "gpt-4o"]).2.1
    ["ollama/llama3"] "gemini/gemini-pro" ["gpt-4o"] "the answer" rfl
    (by
      intro x hx
      simp only [List.mem_singleton] at hx
      exact ⟨"connection refused", by subst hx; rfl⟩)
    rfl

/-- A route whose single candidate blocks for 1000 seconds before
failing — the behaviour of an unresponsive endpoint. -/
def c3SlowAtt : String → AttemptSpec := fun _ =>
  ⟨1000, Except.error "endpoint unresponsive"⟩

/-- C3 counterexample: the claim asserts that `complete` always returns
or raises within a caller-specified overall timeout.
`InferenceRouter.complete` (router.py lines 88-143) takes no timeout
parameter and wraps the attempts in no deadline, so a single candidate
whose awaited call blocks for 1000 s keeps the whole call busy for
1000 s — far beyond the 10 s overall ceiling of the specification's own
router scenario. -/
theorem c3_no_overall_timeout_counterexample :
    (routerComplete c3SlowAtt ["ollama/llama3"]).elapsed = 1000 ∧
    ¬ (routerComplete c3SlowAtt ["ollama/llama3"]).elapsed ≤ 10 := by
  constructor
  · rfl
  · intro h
    have : (1000 : Nat) ≤ 10 := h
    omega

/-! ## C4 — the streaming variant falls back after partial output -/

/-- Stream behaviour for the C4 failing input: the first candidate
yields one chunk and then raises mid-stream; the second candidate
streams to completion. -/
def c4Plans : String → StreamPlan := fun m =>
  if m = "ollama/llama3" then ⟨["Hello, "], some "connection reset mid-stream"⟩
  else ⟨["world."], none⟩

/-- C4 (code bug, evaluated at the failing input): in
`InferenceRouter.stream` the whole `async for` sits inside the
per-candidate `try` (router.py lines 177-198), so a mid-stream
exception raised after a chunk was already yielded is caught like a
connection failure and the loop silently advances to the next
candidate: the caller receives the first candidate's partial chunk
followed by the second candidate's output and a clean finish, with no
surfaced error.  This contradicts both the claim and the method's own
docstring and inline comment, which state that no fallback happens once
a chunk has been yielded. -/
theorem c4_stream_fallback_after_partial_output :
    routerStream c4Plans ["ollama/llama3", "gemini/gemini-pro"] =
      (["Hello, ", "world."], Except.ok ()) := rfl

/-! ## Engine-trace helper lemmas -/

/-- The event list of one loop pass, spelled out. -/
lemma iterStep_evs (interval : Nat) (plan : IterPlan) (st : EngineSt) :
    (iterStep interval plan st).2.1 =
      [Ev.iterInc (st.iteration + 1)] ++ iterPhaseEvents plan
        ++ [Ev.ping, Ev.idleSet]
        ++ (if (st.shutdownEvent || plan.sigDuringIter) || plan.sigDuringSleep
            then [] else [Ev.sleep interval]) := by
  rcases h : plan.failAt with _ | ⟨j, m⟩ <;>
    simp [iterStep, stAfterPhases, h]

/-- The break flag of one loop pass: the loop exits after this pass
exactly when the shutdown event was raised at any point up to the end of
the inter-iteration wait. -/
lemma iterStep_brk (interval : Nat) (plan : IterPlan) (st : EngineSt) :
    (iterStep interval plan st).2.2 =
      ((st.shutdownEvent || plan.sigDuringIter) || plan.sigDuringSleep) := by
  rcases h : plan.failAt with _ | ⟨j, m⟩ <;>
    simp [iterStep, stAfterPhases, h]

/-- The engine state after one loop pass, spelled out. -/
lemma iterStep_st (interval : Nat) (plan : IterPlan) (st : EngineSt) :
    (iterStep interval plan st).1 =
      { iteration := st.iteration + 1
        currentPhase := .IDLE
        lastError :=
          match plan.failAt with
          | none => none
          | some (_, m) => some m
        status :=
          match plan.failAt with
          | none => .ACTIVE
          | some _ => .ERROR
        shutdownEvent := (st.shutdownEvent || plan.sigDuringIter) || plan.sigDuringSleep
        shutdownRequested := st.shutdownRequested || plan.ipcShutdown } := by
  rcases h : plan.failAt with _ | ⟨j, m⟩ <;>
    simp [iterStep, stAfterPhases, h]

/-- Ping counting distributes over append. -/
lemma pingCount_append (a b : List Ev) :
    pingCount (a ++ b) = pingCount a + pingCount b := by
  simp [pingCount, List.countP_append]

/-- Completion counting distributes over append. -/
lemma completeCount_append (a b : List Ev) :
    completeCount (a ++ b) = completeCount a + completeCount b := by
  simp [completeCount, List.countP_append]

/-- Iteration-increment extraction distributes over append. -/
lemma iterIncList_append (a b : List Ev) :
    iterIncList (a ++ b) = iterIncList a ++ iterIncList b := by
  simp [iterIncList]

/-- Phase-start extraction distributes over append. -/
lemma phaseStartList_append (a b : List Ev) :
    phaseStartList (a ++ b) = phaseStartList a ++ phaseStartList b := by
  simp [phaseStartList]

/-- Phase-completion extraction distributes over append. -/
lemma phaseCompleteList_append (a b : List Ev) :
    phaseCompleteList (a ++ b) = phaseCompleteList a ++ phaseCompleteList b := by
  simp [phaseCompleteList]

/-- Sleep extraction distributes over append. -/
lemma sleepList_append (a b : List Ev) :
    sleepList (a ++ b) = sleepList a ++ sleepList b := by
  simp [sleepList]

/-- Clean phase pairs contain no pings. -/
lemma pingCount_pairs (ps : List KriyaPhase) :
    pingCount ((ps.map phasePairEvents).flatten) = 0 := by
  induction ps with
  | nil => rfl
  | cons p tl ih =>
      rw [List.map_cons, List.flatten_cons, pingCount_append, ih]
      rfl

/-- Completions in clean phase pairs: one per phase. -/
lemma completeCount_pairs (ps : List KriyaPhase) :
    completeCount ((ps.map phasePairEvents).flatten) = ps.length := by
  induction ps with
  | nil => rfl
  | cons p tl ih =>
      rw [List.map_cons, List.flatten_cons, completeCount_append, ih]
      have h1 : completeCount (phasePairEvents p) = 1 := rfl
      rw [h1, List.length_cons]
      omega

/-- Clean phase pairs carry no iteration increments. -/
lemma iterIncList_pairs (ps : List KriyaPhase) :
    iterIncList ((ps.map phasePairEvents).flatten) = [] := by
  induction ps with
  | nil => rfl
  | cons p tl ih =>
      rw [List.map_cons, List.flatten_cons, iterIncList_append, ih]
      rfl

/-- Clean phase pairs start exactly the listed phases, in order. -/
lemma phaseStartList_pairs (ps : List KriyaPhase) :
    phaseStartList ((ps.map phasePairEvents).flatten) = ps := by
  induction ps with
  | nil => rfl
  | cons p tl ih =>
      rw [List.map_cons, List.flatten_cons, phaseStartList_append, ih]
      rfl

/-- Clean phase pairs complete exactly the listed phases, in order. -/
lemma phaseCompleteList_pairs (ps : List KriyaPhase) :
    phaseCompleteList ((ps.map phasePairEvents).flatten) = ps := by
  induction ps with
  | nil => rfl
  | cons p tl ih =>
      rw [List.map_cons, List.flatten_cons, phaseCompleteList_append, ih]
      rfl

/-- Clean phase pairs contain no sleeps. -/
lemma sleepList_pairs (ps : List KriyaPhase) :
    sleepList ((ps.map phasePairEvents).flatten) = [] := by
  induction ps with
  | nil => rfl
  | cons p tl ih =>
      rw [List.map_cons, List.flatten_cons, sleepList_append, ih]
      rfl

/-- Taking one more element of the phase sequence appends the phase at
that index. -/
lemma phaseSeq_take_succ (j : Fin 4) :
    phaseSeq.take (j.val + 1) = phaseSeq.take j.val ++ [phaseOfIdx j] := by
  revert j; decide

/-- The length of a prefix of the four-phase sequence. -/
lemma phaseSeq_take_length (j : Fin 4) :
    (phaseSeq.take j.val).length = j.val := by
  revert j; decide

/-- No pings are emitted inside the phase block. -/
lemma pingCount_iterPhase (plan : IterPlan) :
    pingCount (iterPhaseEvents plan) = 0 := by
  rcases h : plan.failAt with _ | ⟨j, m⟩
  · simp only [iterPhaseEvents, h]
    exact pingCount_pairs phaseSeq
  · simp only [iterPhaseEvents, h]
    rw [pingCount_append, pingCount_pairs]
    rfl

/-- Phase completions inside the phase block: four on success, the index
of the failing phase otherwise. -/
lemma completeCount_iterPhase (plan : IterPlan) :
    completeCount (iterPhaseEvents plan) =
      (match plan.failAt with
       | none => 4
       | some (j, _) => j.val) := by
  rcases h : plan.failAt with _ | ⟨j, m⟩
  · simp only [iterPhaseEvents, h]
    exact completeCount_pairs phaseSeq
  · simp only [iterPhaseEvents, h]
    rw [completeCount_append, completeCount_pairs, phaseSeq_take_length]
    have h1 : completeCount [Ev.phaseStart (phaseOfIdx j), Ev.errorCaught m] = 0 := rfl
    rw [h1]
    omega

/-- No iteration increments inside the phase block. -/
lemma iterIncList_iterPhase (plan : IterPlan) :
    iterIncList (iterPhaseEvents plan) = [] := by
  rcases h : plan.failAt with _ | ⟨j, m⟩
  · simp only [iterPhaseEvents, h]
    exact iterIncList_pairs phaseSeq
  · simp only [iterPhaseEvents, h]
    rw [iterIncList_append, iterIncList_pairs]
    rfl

/-- The phases started inside the phase block: all four on success, the
prefix through the failing phase otherwise. -/
lemma phaseStartList_iterPhase (plan : IterPlan) :
    phaseStartList (iterPhaseEvents plan) =
      (match plan.failAt with
       | none => phaseSeq
       | some (j, _) => phaseSeq.take (j.val + 1)) := by
  rcases h : plan.failAt with _ | ⟨j, m⟩
  · simp only [iterPhaseEvents, h]
    exact phaseStartList_pairs phaseSeq
  · simp only [iterPhaseEvents, h]
    rw [phaseStartList_append, phaseStartList_pairs, phaseSeq_take_succ]
    rfl

/-- The phases completed inside the phase block: all four on success,
the strict prefix before the failing phase otherwise. -/
lemma phaseCompleteList_iterPhase (plan : IterPlan) :
    phaseCompleteList (iterPhaseEvents plan) =
      (match plan.failAt with
       | none => phaseSeq
       | some (j, _) => phaseSeq.take j.val) := by
  rcases h : plan.failAt with _ | ⟨j, m⟩
  · simp only [iterPhaseEvents, h]
    exact phaseCompleteList_pairs phaseSeq
  · simp only [iterPhaseEvents, h]
    rw [phaseCompleteList_append, phaseCompleteList_pairs]
    simp [phaseCompleteList]

/-- No sleeps inside the phase block. -/
lemma sleepList_iterPhase (plan : IterPlan) :
    sleepList (iterPhaseEvents plan) = [] := by
  rcases h : plan.failAt with _ | ⟨j, m⟩
  · simp only [iterPhaseEvents, h]
    exact sleepList_pairs phaseSeq
  · simp only [iterPhaseEvents, h]
    rw [sleepList_append, sleepList_pairs]
    rfl

/-- Exactly one ping per loop pass, emitted unconditionally. -/
lemma pingCount_iterStep (interval : Nat) (plan : IterPlan) (st : EngineSt) :
    pingCount (iterStep interval plan st).2.1 = 1 := by
  rw [iterStep_evs, pingCount_append, pingCount_append, pingCount_append,
    pingCount_iterPhase]
  by_cases hb : ((st.shutdownEvent || plan.sigDuringIter) || plan.sigDuringSleep) <;>
    simp [hb, pingCount, List.countP_cons]

/-- Exactly one iteration increment per loop pass, to the successor. -/
lemma iterIncList_iterStep (interval : Nat) (plan : IterPlan) (st : EngineSt) :
    iterIncList (iterStep interval plan st).2.1 = [st.iteration + 1] := by
  rw [iterStep_evs, iterIncList_append, iterIncList_append, iterIncList_append,
    iterIncList_iterPhase]
  by_cases hb : ((st.shutdownEvent || plan.sigDuringIter) || plan.sigDuringSleep) <;>
    simp [hb, iterIncList]

/-- Completions per loop pass come only from the phase block. -/
lemma completeCount_iterStep (interval : Nat) (plan : IterPlan) (st : EngineSt) :
    completeCount (iterStep interval plan st).2.1 =
      completeCount (iterPhaseEvents plan) := by
  rw [iterStep_evs, completeCount_append, completeCount_append, completeCount_append]
  by_cases hb : ((st.shutdownEvent || plan.sigDuringIter) || plan.sigDuringSleep) <;>
    simp [hb, completeCount, List.countP_cons]

/-- Phase starts per loop pass come only from the phase block. -/
lemma phaseStartList_iterStep (interval : Nat) (plan : IterPlan) (st : EngineSt) :
    phaseStartList (iterStep interval plan st).2.1 =
      phaseStartList (iterPhaseEvents plan) := by
  rw [iterStep_evs, phaseStartList_append, phaseStartList_append,
    phaseStartList_append]
  by_cases hb : ((st.shutdownEvent || plan.sigDuringIter) || plan.sigDuringSleep) <;>
    simp [hb, phaseStartList]

/-- Phase completions per loop pass come only from the phase block. -/
lemma phaseCompleteList_iterStep (interval : Nat) (plan : IterPlan) (st : EngineSt) :
    phaseCompleteList (iterStep interval plan st).2.1 =
      phaseCompleteList (iterPhaseEvents plan) := by
  rw [iterStep_evs, phaseCompleteList_append, phaseCompleteList_append,
    phaseCompleteList_append]
  by_cases hb : ((st.shutdownEvent || plan.sigDuringIter) || plan.sigDuringSleep) <;>
    simp [hb, phaseCompleteList]

/-- The sleeps of one loop pass: none when the loop breaks, one full
interval otherwise. -/
lemma sleepList_iterStep (interval : Nat) (plan : IterPlan) (st : EngineSt) :
    sleepList (iterStep interval plan st).2.1 =
      (if ((st.shutdownEvent || plan.sigDuringIter) || plan.sigDuringSleep)
       then [] else [interval]) := by
  rw [iterStep_evs, sleepList_append, sleepList_append, sleepList_append,
    sleepList_iterPhase]
  by_cases hb : ((st.shutdownEvent || plan.sigDuringIter) || plan.sigDuringSleep) <;>
    simp [hb, sleepList]

/-- Every run emits exactly one `WATCHDOG=1` ping per loop iteration: the
number of pings in the trace always equals the number of iteration
increments. -/
lemma pingCount_run (interval : Nat) (plans : List IterPlan) (st : EngineSt) :
    pingCount (run interval plans st).2 =
      (iterIncList (run interval plans st).2).length := by
  induction plans generalizing st with
  | nil => rfl
  | cons plan rest ih =>
      rw [run]
      cases hsd : st.shutdownEvent with
      | true => simp [hsd]; rfl
      | false =>
          simp only [hsd, Bool.false_eq_true, if_false]
          cases hb : (iterStep interval plan st).2.2 with
          | true =>
              simp only [hb, if_true]
              rw [pingCount_append, iterIncList_append, pingCount_iterStep,
                iterIncList_iterStep]
              rfl
          | false =>
              simp only [hb, Bool.false_eq_true, if_false]
              rw [pingCount_append, iterIncList_append, pingCount_iterStep,
                iterIncList_iterStep, ih]
              simp [Nat.add_comm]

/-- In a run in which no phase ever raises, every iteration completes
all four phases, so completions are exactly four per ping. -/
lemma completeCount_run_noFail (interval : Nat) (plans : List IterPlan)
    (st : EngineSt) (hnf : ∀ p ∈ plans, p.failAt = none) :
    completeCount (run interval plans st).2 =
      4 * pingCount (run interval plans st).2 := by
  induction plans generalizing st with
  | nil => rfl
  | cons plan rest ih =>
      have hhead : plan.failAt = none := hnf plan (by simp)
      have htail : ∀ p ∈ rest, p.failAt = none := fun p hp => hnf p (by simp [hp])
      have hcc : completeCount (iterPhaseEvents plan) = 4 := by
        rw [completeCount_iterPhase, hhead]
      rw [run]
      cases hsd : st.shutdownEvent with
      | true => simp [hsd]; rfl
      | false =>
          simp only [hsd, Bool.false_eq_true, if_false]
          cases hb : (iterStep interval plan st).2.2 with
          | true =>
              simp only [hb, if_true]
              rw [completeCount_append, pingCount_append,
                completeCount_iterStep, pingCount_iterStep, hcc]
              rfl
          | false =>
              simp only [hb, Bool.false_eq_true, if_false]
              rw [completeCount_append, pingCount_append,
                completeCount_iterStep, pingCount_iterStep, hcc,
                ih (iterStep interval plan st).1 htail]
              ring

/-- With the shutdown event clear and no signals scheduled, the run
executes one iteration per plan and the iteration counter takes the
consecutive values starting at one past its initial value. -/
lemma iterIncList_run (interval : Nat) (plans : List IterPlan) (st : EngineSt)
    (hsd : st.shutdownEvent = false)
    (hsig : ∀ p ∈ plans, p.sigDuringIter = false ∧ p.sigDuringSleep = false) :
    iterIncList (run interval plans st).2 =
      List.range' (st.iteration + 1) plans.length := by
  induction plans generalizing st with
  | nil => rfl
  | cons plan rest ih =>
      have hhead := hsig plan (by simp)
      have htail : ∀ p ∈ rest, p.sigDuringIter = false ∧ p.sigDuringSleep = false :=
        fun p hp => hsig p (by simp [hp])
      have hb : (iterStep interval plan st).2.2 = false := by
        rw [iterStep_brk, hsd, hhead.1, hhead.2]; rfl
      have hst := iterStep_st interval plan st
      rw [run]
      simp only [hsd, Bool.false_eq_true, if_false, hb]
      rw [iterIncList_append, iterIncList_iterStep]
      have hsd' : (iterStep interval plan st).1.shutdownEvent = false := by
        rw [hst]; simp [hsd, hhead.1, hhead.2]
      have hiter : (iterStep interval plan st).1.iteration = st.iteration + 1 := by
        rw [hst]
      rw [ih (iterStep interval plan st).1 hsd' htail, hiter,
        List.length_cons, List.range'_succ]
      rfl

/-- Every completed inter-iteration sleep in any run waited for exactly
the configured loop interval. -/
lemma sleepList_run (interval : Nat) (plans : List IterPlan) (st : EngineSt) :
    ∀ d ∈ sleepList (run interval plans st).2, d = interval := by
  induction plans generalizing st with
  | nil => intro d hd; simp [run, sleepList] at hd
  | cons plan rest ih =>
      intro d hd
      rw [run] at hd
      cases hsd : st.shutdownEvent with
      | true =>
          rw [hsd] at hd
          simp [sleepList] at hd
      | false =>
          simp only [hsd, Bool.false_eq_true, if_false] at hd
          cases hb : (iterStep interval plan st).2.2 with
          | true =>
              simp only [hb, if_true] at hd
              rw [sleepList_append, sleepList_iterStep] at hd
              rw [iterStep_brk] at hb
              simp [hb, sleepList] at hd
          | false =>
              simp only [hb, Bool.false_eq_true, if_false] at hd
              rw [sleepList_append, sleepList_iterStep] at hd
              rw [iterStep_brk] at hb
              simp only [hb, Bool.false_eq_true, if_false] at hd
              rcases List.mem_append.mp hd with h1 | h2
              · simpa using h1
              · exact ih (iterStep interval plan st).1 d h2

/-! ## C1 — iteration counter and phase order -/

/-- C1 (amended): per loop pass the iteration counter is incremented
exactly once, at the top of the cycle, so after the pass it equals its
previous value plus one, and across a run with no shutdown activity the
counter takes exactly the consecutive values 1, 2, ..., n (never
decreasing or skipping).  The phases executed within an iteration in
which no phase raises are exactly ANALYZE, PATCH, TEST,
UPDATE_ARCHITECTURE, in that order, each started and completed once. -/
theorem c1_iteration_and_phase_order (interval : Nat) (plan : IterPlan)
    (plans : List IterPlan) (st : EngineSt) :
    (iterStep interval plan st).1.iteration = st.iteration + 1 ∧
    (plan.failAt = none →
      phaseStartList (iterStep interval plan st).2.1 = phaseSeq ∧
      phaseCompleteList (iterStep interval plan st).2.1 = phaseSeq) ∧
    (st.shutdownEvent = false →
      (∀ p ∈ plans, p.sigDuringIter = false ∧ p.sigDuringSleep = false) →
      iterIncList (run interval plans st).2 =
        List.range' (st.iteration + 1) plans.length) := by
  refine ⟨by rw [iterStep_st], fun hok => ⟨?_, ?_⟩,
    fun hsd hsig => iterIncList_run interval plans st hsd hsig⟩
  · rw [phaseStartList_iterStep, phaseStartList_iterPhase, hok]
  · rw [phaseCompleteList_iterStep, phaseCompleteList_iterPhase, hok]

/-- A failure-free, signal-free iteration environment. -/
def c1OkPlan : IterPlan :=
  { failAt := none, sigDuringIter := false, sigDuringSleep := false,
    ipcShutdown := false, elapsed := 1 }

/-- C1 counterexample: the phases executed by a fully successful
iteration are named ANALYZE, PATCH, TEST, UPDATE_ARCHITECTURE — four
phases, not the six-phase sequence SENSE, REASON, ACT, REMEMBER,
TELEMETRY_EMIT, PATCH asserted by the claim (`KriyaPhase` in engine.py
lines 39-45 has no such members). -/
theorem c1_phase_names_counterexample :
    (phaseStartList (iterStep 10 c1OkPlan initSt).2.1).map phaseName =
      ["ANALYZE", "PATCH", "TEST", "UPDATE_ARCHITECTURE"] ∧
    (phaseStartList (iterStep 10 c1OkPlan initSt).2.1).map phaseName ≠
      ["SENSE", "REASON", "ACT", "REMEMBER", "TELEMETRY_EMIT", "PATCH"] := by
  decide

/-- C1 witness: three failure-free iterations from the boot state start
the four phases in order and count 1, 2, 3. -/
theorem c1_iteration_and_phase_order_witness :
    phaseStartList (iterStep 10 c1OkPlan initSt).2.1 = phaseSeq ∧
    iterIncList (run 10 [c1OkPlan, c1OkPlan, c1OkPlan] initSt).2 =
      List.range' 1 3 := by
  have h := c1_iteration_and_phase_order 10 c1OkPlan
    [c1OkPlan, c1OkPlan, c1OkPlan] initSt
  exact ⟨(h.2.1 rfl).1, h.2.2 rfl (by decide)⟩

/-! ## C2 — pings versus phase completions -/

/-- C2 (amended): the `WATCHDOG=1` liveness notification is emitted
exactly once per loop iteration, after the try/except phase block and
regardless of whether the phases completed, so the cumulative ping count
always equals the number of iterations (there is no independent timer
path).  In a run in which no phase raises, every iteration completes all
four phases, so pings never exceed phase completions there; the bound
fails only when an iteration's phases raise early. -/
theorem c2_ping_per_iteration (interval : Nat) (plans : List IterPlan)
    (st : EngineSt) :
    pingCount (run interval plans st).2 =
      (iterIncList (run interval plans st).2).length ∧
    ((∀ p ∈ plans, p.failAt = none) →
      completeCount (run interval plans st).2 =
        4 * pingCount (run interval plans st).2 ∧
      pingCount (run interval plans st).2 ≤
        completeCount (run interval plans st).2) := by
  refine ⟨pingCount_run interval plans st, fun hnf => ?_⟩
  have h := completeCount_run_noFail interval plans st hnf
  exact ⟨h, by omega⟩

/-- An iteration whose very first phase raises. -/
def c2FailPlan : IterPlan :=
  { failAt := some (0, "hardware telemetry probe raised"),
    sigDuringIter := false, sigDuringSleep := false,
    ipcShutdown := false, elapsed := 2 }

/-- C2 counterexample: in an iteration whose first phase (ANALYZE)
raises before completing, zero phases complete, yet the loop still sends
`WATCHDOG=1` after the `except` clause (engine.py line 516) — so the
trace has one ping and zero phase completions, violating
ping count less-or-equal completion count. -/
theorem c2_ping_without_completion_counterexample :
    pingCount (run 10 [c2FailPlan] initSt).2 = 1 ∧
    completeCount (run 10 [c2FailPlan] initSt).2 = 0 ∧
    ¬ pingCount (run 10 [c2FailPlan] initSt).2 ≤
        completeCount (run 10 [c2FailPlan] initSt).2 := by
  decide

/-- C2 witness: over two failure-free iterations the theorem yields
eight completions against two pings. -/
theorem c2_ping_per_iteration_witness :
    completeCount (run 10 [c1OkPlan, c1OkPlan] initSt).2 =
      4 * pingCount (run 10 [c1OkPlan, c1OkPlan] initSt).2 ∧
    pingCount (run 10 [c1OkPlan, c1OkPlan] initSt).2 ≤
      completeCount (run 10 [c1OkPlan, c1OkPlan] initSt).2 :=
  (c2_ping_per_iteration 10 [c1OkPlan, c1OkPlan] initSt).2 (by decide)

/-! ## C5 — containment of a phase exception -/

/-- C5 (amended): when phase `j` of an iteration raises, the exception is
caught by the single `try`/`except` wrapping all four phases — at the
iteration boundary, not at the boundary of the raising phase — so the
remaining phases of that iteration are skipped, not executed: exactly
the phases before `j` complete and only the prefix through `j` starts.
The error's string form is recorded in `last_error` and the status set
to ERROR, the loop continues into the next iteration (the exception
never escapes `run()`), and `last_error` is cleared again by the next
fully-successful iteration. -/
theorem c5_error_containment (interval : Nat) (st : EngineSt) (j : Fin 4)
    (m : String) (plan nextPlan : IterPlan) (rest : List IterPlan)
    (hfail : plan.failAt = some (j, m))
    (hsig1 : plan.sigDuringIter = false) (hsig2 : plan.sigDuringSleep = false)
    (hsd : st.shutdownEvent = false) (hnext : nextPlan.failAt = none) :
    (iterStep interval plan st).1.lastError = some m ∧
    (iterStep interval plan st).1.status = DaemonStatus.ERROR ∧
    phaseStartList (iterStep interval plan st).2.1 = phaseSeq.take (j.val + 1) ∧
    phaseCompleteList (iterStep interval plan st).2.1 = phaseSeq.take j.val ∧
    (run interval (plan :: nextPlan :: rest) st).2 =
      (iterStep interval plan st).2.1 ++
        (run interval (nextPlan :: rest) (iterStep interval plan st).1).2 ∧
    (iterStep interval nextPlan (iterStep interval plan st).1).1.lastError = none := by
  have hb : (iterStep interval plan st).2.2 = false := by
    rw [iterStep_brk, hsd, hsig1, hsig2]; rfl
  refine ⟨?_, ?_, ?_, ?_, ?_, ?_⟩
  · rw [iterStep_st, hfail]
  · rw [iterStep_st, hfail]
  · rw [phaseStartList_iterStep, phaseStartList_iterPhase, hfail]
  · rw [phaseCompleteList_iterStep, phaseCompleteList_iterPhase, hfail]
  · rw [run]
    simp only [hsd, Bool.false_eq_true, if_false, hb]
  · rw [iterStep_st, hnext]

/-- An iteration whose first phase raises, with no shutdown activity. -/
def c5FailPlan : IterPlan :=
  { failAt := some (0, "sandbox health check raised"),
    sigDuringIter := false, sigDuringSleep := false,
    ipcShutdown := false, elapsed := 3 }

/-- C5 counterexample: when ANALYZE raises, the remaining phases of the
same iteration do not execute — PATCH, TEST and UPDATE_ARCHITECTURE are
never started, contradicting the claim that they still run.  (The
single `try` at engine.py lines 494-499 wraps all four awaits, so
control jumps straight to `except`.) -/
theorem c5_remaining_phases_skipped_counterexample :
    phaseStartList (iterStep 10 c5FailPlan initSt).2.1 = [KriyaPhase.ANALYZE] ∧
    Ev.phaseStart KriyaPhase.PATCH ∉ (iterStep 10 c5FailPlan initSt).2.1 ∧
    Ev.phaseStart KriyaPhase.TEST ∉ (iterStep 10 c5FailPlan initSt).2.1 ∧
    Ev.phaseStart KriyaPhase.UPDATE_ARCHITECTURE ∉
      (iterStep 10 c5FailPlan initSt).2.1 ∧
    (iterStep 10 c5FailPlan initSt).1.lastError =
      some "sandbox health check raised" := by
  decide

/-- An iteration whose TEST phase raises, with no shutdown activity. -/
def c5WitPlan : IterPlan :=
  { failAt := some (2, "router status raised"),
    sigDuringIter := false, sigDuringSleep := false,
    ipcShutdown := false, elapsed := 3 }

/-- C5 witness: a TEST-phase failure followed by a clean iteration.  The
failing iteration records the error, starts only ANALYZE, PATCH, TEST,
completes only ANALYZE, PATCH, continues into the next iteration, and
the next clean iteration clears `last_error`. -/
theorem c5_error_containment_witness :
    (iterStep 10 c5WitPlan initSt).1.lastError = some "router status raised" ∧
    phaseStartList (iterStep 10 c5WitPlan initSt).2.1 = phaseSeq.take 3 ∧
    phaseCompleteList (iterStep 10 c5WitPlan initSt).2.1 = phaseSeq.take 2 ∧
    (iterStep 10 c1OkPlan (iterStep 10 c5WitPlan initSt).1).1.lastError = none := by
  have h := c5_error_containment 10 initSt 2 "router status raised"
    c5WitPlan c1OkPlan [] rfl rfl rfl rfl rfl
  exact ⟨h.1, h.2.2.1, h.2.2.2.1, h.2.2.2.2.2⟩

/-! ## C7 — shutdown is observed only at the iteration boundary -/

/-- C7 (amended): a shutdown request raised by an OS signal during
iteration k is observed only at the iteration boundary: all remaining
phases of iteration k still execute to completion, the loop breaks out
of the inter-iteration wait immediately, iteration k+1 never starts, and
the engine performs the clean-exit tail (STOPPING notification, OFFLINE
status, sandbox cleanup).  The IPC request-shutdown command, by
contrast, only sets a `shutdown_requested` attribute that the loop never
consults, so it does not stop the engine (see the counterexample). -/
theorem c7_signal_shutdown_iteration_boundary (interval : Nat) (st : EngineSt)
    (plan : IterPlan) (rest : List IterPlan)
    (hsd : st.shutdownEvent = false) (hsig : plan.sigDuringIter = true)
    (hok : plan.failAt = none) :
    phaseStartList (iterStep interval plan st).2.1 = phaseSeq ∧
    phaseCompleteList (iterStep interval plan st).2.1 = phaseSeq ∧
    (run interval (plan :: rest) st).2 =
      (iterStep interval plan st).2.1 ++ [Ev.stopping, Ev.cleanup] ∧
    iterIncList (run interval (plan :: rest) st).2 = [st.iteration + 1] ∧
    sleepList (run interval (plan :: rest) st).2 = [] ∧
    (run interval (plan :: rest) st).1.status = DaemonStatus.OFFLINE := by
  have hb : (iterStep interval plan st).2.2 = true := by
    rw [iterStep_brk, hsig]; simp
  have hrun : (run interval (plan :: rest) st) =
      ({ (iterStep interval plan st).1 with status := .OFFLINE },
        (iterStep interval plan st).2.1 ++ [Ev.stopping, Ev.cleanup]) := by
    rw [run]
    simp only [hsd, Bool.false_eq_true, if_false, hb, if_true]
  refine ⟨?_, ?_, ?_, ?_, ?_, ?_⟩
  · rw [phaseStartList_iterStep, phaseStartList_iterPhase, hok]
  · rw [phaseCompleteList_iterStep, phaseCompleteList_iterPhase, hok]
  · rw [hrun]
  · rw [hrun]
    simp only [iterIncList_append, iterIncList_iterStep]
    rfl
  · rw [hrun]
    simp only [sleepList_append, sleepList_iterStep, hsd, hsig]
    rfl
  · rw [hrun]

/-- An iteration during which the IPC shutdown command arrives. -/
def c7IpcPlan : IterPlan :=
  { failAt := none, sigDuringIter := false, sigDuringSleep := false,
    ipcShutdown := true, elapsed := 1 }

/-- C7 counterexample: the IPC `/command` shutdown action only sets a
`shutdown_requested` attribute on the injected state object
(ipc_server.py line 176); `KriyaEngine.run` waits on its separate
`_shutdown_event` and never reads `shutdown_requested`, so after the
command arrives in iteration 1 the loop still starts iteration 2 and no
clean-exit tail runs — contradicting the claim that iteration k+1 never
starts after an IPC shutdown request. -/
theorem c7_ipc_shutdown_ineffective_counterexample :
    iterIncList (run 10 [c7IpcPlan, c1OkPlan] initSt).2 = [1, 2] ∧
    (run 10 [c7IpcPlan, c1OkPlan] initSt).1.shutdownRequested = true ∧
    (run 10 [c7IpcPlan, c1OkPlan] initSt).1.status ≠ DaemonStatus.OFFLINE := by
  decide

/-- An iteration during which SIGTERM arrives while the phases run. -/
def c7SigPlan : IterPlan :=
  { failAt := none, sigDuringIter := true, sigDuringSleep := false,
    ipcShutdown := false, elapsed := 1 }

/-- C7 witness: with SIGTERM arriving during iteration 1's phases, all
four phases still execute, the loop never sleeps, iteration 2 never
starts, and the engine exits OFFLINE. -/
theorem c7_signal_shutdown_iteration_boundary_witness :
    phaseStartList (iterStep 10 c7SigPlan initSt).2.1 = phaseSeq ∧
    iterIncList (run 10 [c7SigPlan, c1OkPlan] initSt).2 = [1] ∧
    (run 10 [c7SigPlan, c1OkPlan] initSt).1.status = DaemonStatus.OFFLINE := by
  have h := c7_signal_shutdown_iteration_boundary 10 initSt c7SigPlan
    [c1OkPlan] rfl rfl rfl
  exact ⟨h.1, h.2.2.2.1, h.2.2.2.2.2⟩

/-! ## C8 — the inter-iteration sleep is a fixed interval -/

/-- C8 (amended): the engine performs no elapsed-time measurement: the
timeout passed to the inter-iteration wait is always the fixed
`loop_interval`, regardless of how long the iteration's phases took, so
every completed sleep in any run waited exactly `loop_interval` (and an
iteration not interrupted by shutdown always performs that full sleep).
There is no `max(0, target_interval − elapsed)` computation and no
catch-up of skipped ticks. -/
theorem c8_sleep_is_fixed_interval (interval : Nat) (plans : List IterPlan)
    (st : EngineSt) (plan : IterPlan) :
    (∀ d ∈ sleepList (run interval plans st).2, d = interval) ∧
    (st.shutdownEvent = false → plan.sigDuringIter = false →
      plan.sigDuringSleep = false →
      sleepList (iterStep interval plan st).2.1 = [interval]) := by
  refine ⟨sleepList_run interval plans st, fun hsd hs1 hs2 => ?_⟩
  rw [sleepList_iterStep, hsd, hs1, hs2]
  rfl

/-- An iteration whose phases consume 25 s of wall time against a 10 s
loop interval. -/
def c8OverrunPlan : IterPlan :=
  { failAt := none, sigDuringIter := false, sigDuringSleep := false,
    ipcShutdown := false, elapsed := 25 }

/-- C8 counterexample: with `loop_interval = 10` and an iteration whose
phases consumed 25 s, the claim prescribes a sleep of
`max(0, 10 − 25) = 0` (start immediately), but the code passes the
fixed timeout 10 to `asyncio.wait_for` (engine.py lines 523-527) and
sleeps the full interval. -/
theorem c8_fixed_sleep_counterexample :
    c8OverrunPlan.elapsed = 25 ∧
    sleepList (iterStep 10 c8OverrunPlan initSt).2.1 = [10] ∧
    max 0 (10 - c8OverrunPlan.elapsed) = 0 ∧
    sleepList (iterStep 10 c8OverrunPlan initSt).2.1 ≠
      [max 0 (10 - c8OverrunPlan.elapsed)] := by
  decide

/-- C8 witness: a clean iteration sleeps exactly the 10 s interval, and
every sleep of a two-iteration run equals 10. -/
theorem c8_sleep_is_fixed_interval_witness :
    (10 : Nat) = 10 ∧
    sleepList (iterStep 10 c1OkPlan initSt).2.1 = [10] := by
  have h := c8_sleep_is_fixed_interval 10 [c1OkPlan, c1OkPlan] initSt c1OkPlan
  exact ⟨h.1 10 (by decide), h.2 rfl rfl rfl⟩

/-! ## C6 — live-reference reads versus boundary snapshots -/

/-- Replaying writes distributes over append. -/
lemma applyWrites_append (s : KriyaPhase × Nat) (a b : List FieldWrite) :
    applyWrites s (a ++ b) = applyWrites (applyWrites s a) b := by
  induction a generalizing s with
  | nil => rfl
  | cons w tl ih => cases w <;> simp [applyWrites, ih]

/-- Write extraction distributes over append. -/
lemma writesOf_append (a b : List Ev) :
    writesOf (a ++ b) = writesOf a ++ writesOf b := by
  simp [writesOf]

/-- Phase writes never touch the iteration field. -/
lemma applyWrites_snd_mapPhase (s : KriyaPhase × Nat) (qs : List KriyaPhase) :
    (applyWrites s (qs.map FieldWrite.wPhase)).2 = s.2 := by
  induction qs generalizing s with
  | nil => rfl
  | cons q tl ih => simp [applyWrites, ih]

/-- Clean phase pairs write only the phase field. -/
lemma writesOf_pairs (ps : List KriyaPhase) :
    writesOf ((ps.map phasePairEvents).flatten) = ps.map FieldWrite.wPhase := by
  induction ps with
  | nil => rfl
  | cons p tl ih =>
      rw [List.map_cons, List.flatten_cons, writesOf_append, ih]
      rfl

/-- The phase block writes only the phase field, whether or not a phase
raises. -/
lemma writesOf_iterPhase (plan : IterPlan) :
    ∃ qs : List KriyaPhase,
      writesOf (iterPhaseEvents plan) = qs.map FieldWrite.wPhase := by
  rcases h : plan.failAt with _ | ⟨j, m⟩
  · refine ⟨phaseSeq, ?_⟩
    simp only [iterPhaseEvents, h]
    exact writesOf_pairs phaseSeq
  · refine ⟨phaseSeq.take j.val ++ [phaseOfIdx j], ?_⟩
    simp only [iterPhaseEvents, h]
    rw [writesOf_append, writesOf_pairs]
    simp [writesOf]

/-- One loop pass drives the shared cell from its pre-iteration value to
(IDLE, incremented counter), whatever happens in between. -/
lemma applyWrites_iterStep (interval : Nat) (plan : IterPlan) (st : EngineSt) :
    applyWrites (st.currentPhase, st.iteration)
        (writesOf (iterStep interval plan st).2.1) =
      (KriyaPhase.IDLE, st.iteration + 1) := by
  obtain ⟨qs, hqs⟩ := writesOf_iterPhase plan
  have hif : writesOf
      (if (st.shutdownEvent || plan.sigDuringIter) || plan.sigDuringSleep
       then ([] : List Ev) else [Ev.sleep interval]) = [] := by
    by_cases hb : ((st.shutdownEvent || plan.sigDuringIter) || plan.sigDuringSleep) <;>
      simp [hb, writesOf]
  rw [iterStep_evs, writesOf_append, writesOf_append, writesOf_append, hqs, hif,
    List.append_nil]
  rw [applyWrites_append, applyWrites_append]
  have h1 : applyWrites (st.currentPhase, st.iteration)
      (writesOf [Ev.iterInc (st.iteration + 1)]) =
      (st.currentPhase, st.iteration + 1) := rfl
  have h3 : writesOf [Ev.ping, Ev.idleSet] = [FieldWrite.wPhase KriyaPhase.IDLE] := rfl
  rw [h1, h3]
  have h4 : ∀ s : KriyaPhase × Nat,
      applyWrites s [FieldWrite.wPhase KriyaPhase.IDLE] = (KriyaPhase.IDLE, s.2) :=
    fun s => rfl
  rw [h4, applyWrites_snd_mapPhase]

/-- The field writes of any run, replayed over the initial live values,
reproduce exactly the engine's final phase and iteration — the shared
cell is the live engine state. -/
lemma applyWrites_run (interval : Nat) (plans : List IterPlan) (st : EngineSt) :
    applyWrites (st.currentPhase, st.iteration)
        (writesOf (run interval plans st).2) =
      ((run interval plans st).1.currentPhase,
        (run interval plans st).1.iteration) := by
  induction plans generalizing st with
  | nil => rfl
  | cons plan rest ih =>
      rw [run]
      cases hsd : st.shutdownEvent with
      | true =>
          simp only [hsd, if_true]
          rfl
      | false =>
          simp only [hsd, Bool.false_eq_true, if_false]
          cases hb : (iterStep interval plan st).2.2 with
          | true =>
              simp only [hb, if_true]
              rw [writesOf_append, applyWrites_append, applyWrites_iterStep,
                iterStep_st]
              rfl
          | false =>
              simp only [hb, Bool.false_eq_true, if_false]
              rw [writesOf_append, applyWrites_append, applyWrites_iterStep]
              have hcp : (iterStep interval plan st).1.currentPhase =
                  KriyaPhase.IDLE := by rw [iterStep_st]
              have hit : (iterStep interval plan st).1.iteration =
                  st.iteration + 1 := by rw [iterStep_st]
              rw [← hcp, ← hit]
              exact ih (iterStep interval plan st).1

/-- C6 (amended): the IPC server holds the live state reference and the
`/telemetry` endpoint assembles its record by reading the live fields
one at a time, with no copy taken at a phase boundary.  The shared cell
faithfully tracks the writer: replaying all writes of a run reproduces
the engine's final phase and iteration, so a read whose two field
accesses happen at the same writer position returns the true live state
(in particular a read after the last write returns the final state).
But a reader whose phase read and iteration read straddle writer
activity can observe a record that no atomic instant of the run ever
exhibits, mixing iteration k's phase with iteration k+1's counter. -/
theorem c6_live_reference_reads (interval : Nat) (plans : List IterPlan)
    (st : EngineSt) :
    applyWrites (st.currentPhase, st.iteration)
        (writesOf (run interval plans st).2) =
      ((run interval plans st).1.currentPhase,
        (run interval plans st).1.iteration) ∧
    readerObserve (st.currentPhase, st.iteration)
        (writesOf (run interval plans st).2)
        (writesOf (run interval plans st).2).length
        (writesOf (run interval plans st).2).length =
      ((run interval plans st).1.currentPhase,
        (run interval plans st).1.iteration) ∧
    (∃ ws : List FieldWrite, ∃ k1 k2 : Nat, k1 ≤ k2 ∧
      (∀ j ≤ ws.length,
        applyWrites (KriyaPhase.IDLE, 0) (ws.take j) ≠
          readerObserve (KriyaPhase.IDLE, 0) ws k1 k2)) := by
  refine ⟨applyWrites_run interval plans st, ?_, ?_⟩
  · have h := applyWrites_run interval plans st
    simp only [readerObserve, List.take_length]
    rw [h]
  · refine ⟨writesOf (run 10 [c1OkPlan, c5FailPlan] initSt).2, 4, 7,
      by omega, ?_⟩
    decide

/-- Schedule for the torn read: a clean first iteration, then a second
iteration whose first phase raises (so the second iteration never enters
TEST). -/
def c6Plans : List IterPlan :=
  [{ failAt := none, sigDuringIter := false, sigDuringSleep := false,
     ipcShutdown := false, elapsed := 1 },
   { failAt := some (0, "telemetry scrape failed"), sigDuringIter := false,
     sigDuringSleep := false, ipcShutdown := false, elapsed := 1 }]

/-- The field writes the engine performs during the torn-read schedule. -/
def c6Writes : List FieldWrite := writesOf (run 10 c6Plans initSt).2

/-- C6 counterexample: the `/telemetry` endpoint reads `phase` first and
`iteration` second from the live reference (ipc_server.py lines
136-137); a reader whose `phase` read lands after the writer's 4th
write (mid-TEST of iteration 1) and whose `iteration` read lands after
the 7th write (just past iteration 2's increment) observes
(TEST, 2) — iteration 1's phase paired with iteration 2's counter — a
record that no atomic point of the whole run ever exhibits, since
iteration 2 fails in ANALYZE and never reaches TEST.  This contradicts
the claim that every external read reflects a phase-boundary snapshot
and never mixes fields of iterations k and k+1. -/
theorem c6_torn_read_counterexample :
    (4 : Nat) ≤ 7 ∧
    readerObserve (initSt.currentPhase, initSt.iteration) c6Writes 4 7 =
      (KriyaPhase.TEST, 2) ∧
    (∀ j ≤ c6Writes.length,
      applyWrites (initSt.currentPhase, initSt.iteration) (c6Writes.take j) ≠
        (KriyaPhase.TEST, 2)) := by
  decide

end YantraOS
